import Mathlib

/-!
Verification development for the admin-panel image upload components.

The repository holds four variants of one speculative-preview-then-reconcile
upload flow:

- `ImageUploadBasic`: the single-image widget in
  src/src/components/Admin/ImageUpload.tsx;
- `ImageUploadTabs`: the single-image widget with URL/upload tabs in
  src/unnamed/part_000 (first document);
- `RichTextEditorMap`: the rich-text editor in
  src/src/components/Admin/RichTextEditor.tsx, which keeps a map from blob
  URLs to server URLs and rewrites serialized content in handleInput;
- `RichTextEditorTransform`: the rich-text editor with image transform
  controls in src/unnamed/part_000 (second document), which rewrites the
  innerHTML string once on upload success and tracks a selected image.

Strings are modelled as lists of characters.  Event traces record the
externally visible side effects of one handler invocation in program order:
URL.createObjectURL and URL.revokeObjectURL calls, state setters, onChange
invocations, the fetch request, and toast notifications.
-/

abbrev Str := List Char

/-- The scheme that URL.createObjectURL results start with. -/
def blobScheme : Str := ['b', 'l', 'o', 'b', ':']

/-- Models `s.startsWith('blob:')`, the check the components use to recognise
a transient local handle. -/
def isBlobUrl (s : Str) : Bool := blobScheme.isPrefixOf s

/-- The string JavaScript produces when an undefined value is coerced into a
string (template literals, String.prototype.replace). -/
def undefLit : Str := ['u', 'n', 'd', 'e', 'f', 'i', 'n', 'e', 'd']

/-- String coercion of a possibly-missing JSON field, as performed by JS
string operations on an undefined value. -/
def jsCoe : Option Str → Str
  | some s => s
  | none => undefLit

/-- A JavaScript string-or-undefined value, as handed to setters and to the
onChange callback.  A 2xx response body without a url field makes data.url
undefined, and the widgets pass that value on unchanged. -/
inductive JVal where
  | undef : JVal
  | str : Str → JVal
deriving DecidableEq

/-- The value of `data.url` as the widgets read it: the field when present,
undefined otherwise. -/
def jval : Option Str → JVal
  | some s => JVal.str s
  | none => JVal.undef

/-- Outcome of one upload attempt: a 2xx response carrying an optional url
field in its JSON body, a non-2xx response, or a thrown fetch. -/
inductive UploadOutcome where
  | ok : Option Str → UploadOutcome
  | httpError : UploadOutcome
  | networkError : UploadOutcome
deriving DecidableEq

/-! ### Search-and-replace on serialized content

`replaceAllGo` embeds `content.replace(new RegExp(blobUrl, 'g'), serverUrl)`
(RichTextEditor.tsx line 50): global replacement of the leftmost
non-overlapping occurrences of a literal pattern.  Blob URLs are treated as
literal patterns.  `replaceFirst` embeds
`content.replace(blobUrl, serverUrl)` (part_000 line 436): a string first
argument replaces only the first occurrence.  The fuel argument of the Go
functions makes the recursion structural; every wrapper passes the length of
the subject string, which the termination argument shows is always enough
fuel, so the fuel case is never reached on wrapper calls. -/

def replaceAllGo (h u : Str) : Nat → Str → Str
  | _, [] => []
  | 0, s => s
  | f + 1, c :: rest =>
      if h.isPrefixOf (c :: rest) = true then
        u ++ replaceAllGo h u f (List.drop h.length (c :: rest))
      else c :: replaceAllGo h u f rest

/-- Global literal replacement, the Map editor reconciliation primitive. -/
def replaceAll (h u s : Str) : Str :=
  if h = [] then s else replaceAllGo h u s.length s

/-- First-occurrence replacement, the transform editor reconciliation
primitive (JS String.prototype.replace with a string pattern). -/
def replaceFirst (h u : Str) : Str → Str
  | [] => []
  | c :: rest =>
      if h.isPrefixOf (c :: rest) = true then u ++ List.drop h.length (c :: rest)
      else c :: replaceFirst h u rest

def countOccsGo (h : Str) : Nat → Str → Nat
  | _, [] => 0
  | 0, _ => 0
  | f + 1, c :: rest =>
      if h.isPrefixOf (c :: rest) = true then
        countOccsGo h f (List.drop h.length (c :: rest)) + 1
      else countOccsGo h f rest

/-- Number of leftmost non-overlapping occurrences of h in s. -/
def countOccs (h s : Str) : Nat :=
  if h = [] then 0 else countOccsGo h s.length s

def consFirst (c : Char) : List Str → List Str
  | [] => [[c]]
  | p :: ps => (c :: p) :: ps

def splitOnGo (h : Str) : Nat → Str → List Str
  | _, [] => [[]]
  | 0, s => [s]
  | f + 1, c :: rest =>
      if h.isPrefixOf (c :: rest) = true then
        [] :: splitOnGo h f (List.drop h.length (c :: rest))
      else consFirst c (splitOnGo h f rest)

/-- Segments of s between the leftmost non-overlapping occurrences of h. -/
def splitOnL (h s : Str) : List Str :=
  if h = [] then [s] else splitOnGo h s.length s

/-- Interleaves a separator between segments. -/
def joinWith (u : Str) : List Str → Str
  | [] => []
  | [p] => p
  | p :: ps => p ++ u ++ joinWith u ps

/-- Whether h occurs anywhere in the subject string. -/
def hasOcc (h : Str) : Str → Bool
  | [] => h.isEmpty
  | c :: rest => h.isPrefixOf (c :: rest) || hasOcc h rest

/-! ### Document model for the rich-text editors -/

/-- A node of the contenteditable document: an image element with its src,
its image-selected marker class, and its width and float presentation
attributes, or any other content. -/
inductive Node where
  | img (src : Str) (sel : Bool) (width : Str) (flt : Str) : Node
  | text (s : Str) : Node
deriving DecidableEq

abbrev Doc := List Node

/-! ### Event traces -/

/-- Externally visible effects of one handler invocation, in program order. -/
inductive Ev where
  | created (h : Str) : Ev
  | revoked (h : Str) : Ev
  | previewSet (v : JVal) : Ev
  | urlInputSet (v : JVal) : Ev
  | changed (v : JVal) : Ev
  | changedStr (s : Str) : Ev
  | changedDoc (d : Doc) : Ev
  | inserted (src : Str) : Ev
  | removedImgs (src : Str) : Ev
  | uploadingSet (b : Bool) : Ev
  | requestSent : Ev
  | toastInfo : Ev
  | toastSuccess : Ev
  | toastError : Ev
deriving DecidableEq

/-- Number of occurrences of one event in a trace. -/
def countEv (e : Ev) : List Ev → Nat
  | [] => 0
  | x :: tr => (if x = e then 1 else 0) + countEv e tr

/-- The values carried by the onChange invocations of a widget trace. -/
def changedVals : List Ev → List JVal
  | [] => []
  | Ev.changed v :: tr => v :: changedVals tr
  | _ :: tr => changedVals tr

namespace ImageUploadBasic

/-- State of src/src/components/Admin/ImageUpload.tsx: the parent-held bound
reference (updated by onChange), the urlInput and previewUrl useState cells,
and the uploading flag. -/
structure St where
  value : JVal
  urlInput : JVal
  previewUrl : JVal
  uploading : Bool
deriving DecidableEq

/-- The onDrop handler (lines 30-90).  acceptedFiles[0] is modelled by the
file option; h is the blob URL createObjectURL returns; o is how the fetch
settles.  With a file: create the blob URL, set it as preview, upload; on ok
read data.url (undefined when the field is missing) and set
urlInput/previewUrl/onChange to it, revoke, success toast; on a non-ok
response revoke and revert the preview, then the thrown error is caught,
which revokes and reverts again and shows the error toast; on a thrown fetch
the catch block alone runs.  onChange is never called on failure. -/
def onDrop (st : St) (file : Option Unit) (h : Str) (o : UploadOutcome) :
    St × List Ev :=
  match file with
  | none => (st, [])
  | some _ =>
    let ev0 : List Ev :=
      [Ev.created h, Ev.previewSet (JVal.str h), Ev.uploadingSet true, Ev.requestSent]
    match o with
    | UploadOutcome.ok u =>
        let sv := jval u
        (⟨sv, sv, sv, false⟩,
          ev0 ++ [Ev.urlInputSet sv, Ev.previewSet sv, Ev.changed sv, Ev.revoked h,
            Ev.toastSuccess, Ev.uploadingSet false])
    | UploadOutcome.httpError =>
        (⟨st.value, st.urlInput, st.value, false⟩,
          ev0 ++ [Ev.revoked h, Ev.previewSet st.value, Ev.revoked h,
            Ev.previewSet st.value, Ev.toastError, Ev.uploadingSet false])
    | UploadOutcome.networkError =>
        (⟨st.value, st.urlInput, st.value, false⟩,
          ev0 ++ [Ev.revoked h, Ev.previewSet st.value, Ev.toastError,
            Ev.uploadingSet false])

/-- The handleUrlChange handler (lines 100-104): typed URL becomes urlInput,
previewUrl and the bound value.  No revocation happens here. -/
def handleUrlChange (st : St) (url : Str) : St × List Ev :=
  (⟨JVal.str url, JVal.str url, JVal.str url, st.uploading⟩,
    [Ev.urlInputSet (JVal.str url), Ev.previewSet (JVal.str url),
      Ev.changed (JVal.str url)])

/-- The clearImage handler (lines 106-115): revoke the preview if it is a
truthy blob URL, then clear everything. -/
def clearImage (st : St) : St × List Ev :=
  let rev : List Ev :=
    match st.previewUrl with
    | JVal.str p => if p ≠ [] ∧ isBlobUrl p = true then [Ev.revoked p] else []
    | JVal.undef => []
  (⟨JVal.str [], JVal.str [], JVal.str [], st.uploading⟩,
    rev ++ [Ev.changed (JVal.str []), Ev.urlInputSet (JVal.str []),
      Ev.previewSet (JVal.str [])])

/-- The unmount cleanup effect (lines 118-124): revoke the current preview
if it is a truthy blob URL. -/
def unmountCleanup (st : St) : List Ev :=
  match st.previewUrl with
  | JVal.str p => if p ≠ [] ∧ isBlobUrl p = true then [Ev.revoked p] else []
  | JVal.undef => []

end ImageUploadBasic

namespace ImageUploadTabs

/-- State of the tabs widget in src/unnamed/part_000 (first document):
bound value, urlInput, previewUrl, uploading flag and the localImageFile
cell (modelled as a flag). -/
structure St where
  value : JVal
  urlInput : JVal
  previewUrl : JVal
  uploading : Bool
  localFile : Bool
deriving DecidableEq

/-- The onDrop handler (lines 33-94).  Unlike the basic widget it calls
onChange with the blob URL immediately (line 44); on success it calls
onChange with data.url but keeps the blob URL as the preview and performs no
revocation; on failure (both kinds) it revokes and clears previewUrl,
localImageFile and the bound value to empty — the non-ok branch does this
once, throws, and the catch block repeats it. -/
def onDrop (st : St) (file : Option Unit) (h : Str) (o : UploadOutcome) :
    St × List Ev :=
  match file with
  | none => (st, [])
  | some _ =>
    let ev0 : List Ev :=
      [Ev.created h, Ev.previewSet (JVal.str h), Ev.changed (JVal.str h),
        Ev.uploadingSet true, Ev.requestSent]
    match o with
    | UploadOutcome.ok u =>
        let sv := jval u
        (⟨sv, st.urlInput, JVal.str h, false, true⟩,
          ev0 ++ [Ev.changed sv, Ev.toastSuccess, Ev.uploadingSet false])
    | UploadOutcome.httpError =>
        (⟨JVal.str [], st.urlInput, JVal.str [], false, false⟩,
          ev0 ++ [Ev.revoked h, Ev.previewSet (JVal.str []), Ev.changed (JVal.str []),
            Ev.revoked h, Ev.previewSet (JVal.str []), Ev.changed (JVal.str []),
            Ev.toastError, Ev.uploadingSet false])
    | UploadOutcome.networkError =>
        (⟨JVal.str [], st.urlInput, JVal.str [], false, false⟩,
          ev0 ++ [Ev.revoked h, Ev.previewSet (JVal.str []), Ev.changed (JVal.str []),
            Ev.toastError, Ev.uploadingSet false])

end ImageUploadTabs

namespace RichTextEditorMap

/-- The handleInput serialization step (RichTextEditor.tsx lines 44-55): the
innerHTML string with every known blob URL globally replaced by its server
URL, in map insertion order, handed to onChange. -/
def handleInput (uploadedImages : List (Str × Str)) (content : Str) : Str :=
  uploadedImages.foldl (fun c m => replaceAll m.1 m.2 c) content

/-- Markup the insertImage command contributes for a src value. -/
def imgTag (src : Str) : Str :=
  ['<', 'i', 'm', 'g', ' ', 's', 'r', 'c', '='] ++ src ++ ['>']

/-- The handleImageUpload handler (RichTextEditor.tsx lines 63-132): insert
the blob image and report the content through handleInput, show the info
toast, upload; on ok append the pair (blobUrl, baseURL ++ data.url) to the
map — no revocation and no removal, the blob image stays in the document; on
a non-ok response remove the matching images and revoke; on a thrown fetch
only the error toast runs. -/
def handleImageUpload (base : Str) (uploadedImages : List (Str × Str))
    (content : Str) (file : Option Unit) (h : Str) (o : UploadOutcome) :
    List (Str × Str) × List Ev :=
  match file with
  | none => (uploadedImages, [])
  | some _ =>
    let ev0 : List Ev :=
      [Ev.created h, Ev.inserted h,
        Ev.changedStr (handleInput uploadedImages (content ++ imgTag h)),
        Ev.toastInfo, Ev.requestSent]
    match o with
    | UploadOutcome.ok u =>
        (uploadedImages ++ [(h, base ++ jsCoe u)], ev0 ++ [Ev.toastSuccess])
    | UploadOutcome.httpError =>
        (uploadedImages, ev0 ++ [Ev.removedImgs h, Ev.revoked h, Ev.toastError])
    | UploadOutcome.networkError =>
        (uploadedImages, ev0 ++ [Ev.toastError])

end RichTextEditorMap

namespace RichTextEditorTransform

/-- Default width and float the editor assigns to inserted images. -/
def w300 : Str := ['3', '0', '0', 'p', 'x']

def floatNone : Str := ['n', 'o', 'n', 'e']

/-- The img[src=h] selector used by the failure cleanup. -/
def isImgSrc (h : Str) : Node → Bool
  | Node.img s _ _ _ => decide (s = h)
  | Node.text _ => false

/-- Whether a node is an image element at all. -/
def isImgNode : Node → Bool
  | Node.img _ _ _ _ => true
  | Node.text _ => false

/-- insertImageAtCursor (part_000 lines 339-396): a fresh image element with
the given src and default presentation attributes, carrying no selection
marker, added to the document. -/
def insertImageAtCursor (src : Str) (d : Doc) : Doc :=
  d ++ [Node.img src false w300 floatNone]

/-- The failure cleanup (part_000 lines 449-452 and RichTextEditor.tsx lines
112-116): querySelectorAll over img[src=blobUrl] and removal of every match. -/
def removeFailedImgs (h : Str) (d : Doc) : Doc :=
  d.filter fun n => ! isImgSrc h n

/-- The success-path innerHTML rewrite (part_000 line 436) seen at document
level: content.replace(blobUrl, serverUrl) with a string pattern rewrites
only the first occurrence, hence only the first image whose src is the
handle. -/
def reconcileFirstImg (h u : Str) : Doc → Doc
  | [] => []
  | Node.img s sel w a :: rest =>
      if s = h then Node.img u sel w a :: rest
      else Node.img s sel w a :: reconcileFirstImg h u rest
  | n :: rest => n :: reconcileFirstImg h u rest

/-- The success-path innerHTML rewrite (part_000 lines 434-440) at string
level: a first-occurrence textual substitution. -/
def reconcile (h u content : Str) : Str := replaceFirst h u content

/-- Removing the image-selected marker from a node, as the classList removal
does. -/
def unselNode : Node → Node
  | Node.img s _ w a => Node.img s false w a
  | n => n

/-- Adding the image-selected marker to a node. -/
def selNode : Node → Node
  | Node.img s _ w a => Node.img s true w a
  | n => n

/-- classList removal of image-selected over every image of the document. -/
def clearSel (d : Doc) : Doc := d.map unselNode

/-- Marking the node at one position. -/
def setSelAt : Nat → Doc → Doc
  | _, [] => []
  | 0, n :: d => selNode n :: d
  | i + 1, n :: d => n :: setSelAt i d

/-- Setting the width of the image at one position, keeping its marker. -/
def setWidthAt (w : Str) : Nat → Doc → Doc
  | _, [] => []
  | 0, Node.img s sel _ a :: d => Node.img s sel w a :: d
  | 0, n :: d => n :: d
  | i + 1, n :: d => n :: setWidthAt w i d

/-- Setting the float of the image at one position, keeping its marker. -/
def setFloatAt (a : Str) : Nat → Doc → Doc
  | _, [] => []
  | 0, Node.img s sel w _ :: d => Node.img s sel w a :: d
  | 0, n :: d => n :: d
  | i + 1, n :: d => n :: setFloatAt a i d

/-- Whether a node is an image carrying the image-selected marker. -/
def isSelImg : Node → Bool
  | Node.img _ true _ _ => true
  | _ => false

/-- Number of images of the document carrying the image-selected marker. -/
def selCount : Doc → Nat
  | [] => 0
  | n :: d => (if isSelImg n then 1 else 0) + selCount d

/-- State of the transform editor: the document and the selectedImage cell
(modelled as the index of the selected node). -/
structure EditorSt where
  doc : Doc
  selected : Option Nat
deriving DecidableEq

/-- handleImageClick (part_000 lines 309-321): the handler is attached to
image elements only; it records the clicked image, removes the
image-selected class from every image, then adds it to the clicked one. -/
def stepClickImg (i : Nat) (st : EditorSt) : EditorSt :=
  match st.doc[i]? with
  | some (Node.img _ _ _ _) => ⟨setSelAt i (clearSel st.doc), some i⟩
  | _ => st

/-- The editor onClick handler for clicks outside any image (part_000 lines
793-802): clear the selection cell and remove the class from every image. -/
def stepClickOut (st : EditorSt) : EditorSt := ⟨clearSel st.doc, none⟩

/-- resizeSelectedImage (part_000 lines 489-502): set a preset width on the
selected image, if any. -/
def resizeSelectedImage (w : Str) (st : EditorSt) : EditorSt :=
  match st.selected with
  | some i => ⟨setWidthAt w i st.doc, st.selected⟩
  | none => st

/-- alignSelectedImage and clearImageFloat (part_000 lines 504-535): set a
float preset on the selected image, if any. -/
def alignSelectedImage (a : Str) (st : EditorSt) : EditorSt :=
  match st.selected with
  | some i => ⟨setFloatAt a i st.doc, st.selected⟩
  | none => st

/-- The handleImageUpload handler (part_000 lines 398-469): insert the blob
image and report through handleInput, info toast, upload; on ok rewrite the
first matching image src to data.url (undefined coerces to the string
undefined) and revoke; on a non-ok response remove every matching image,
report, revoke; on a thrown fetch only the error toast runs — the document
keeps the blob image. -/
def handleImageUpload (st : EditorSt) (file : Option Unit) (h : Str)
    (o : UploadOutcome) : EditorSt × List Ev :=
  match file with
  | none => (st, [])
  | some _ =>
    let d1 := insertImageAtCursor h st.doc
    let ev0 : List Ev :=
      [Ev.created h, Ev.inserted h, Ev.changedDoc d1, Ev.toastInfo, Ev.requestSent]
    match o with
    | UploadOutcome.ok u =>
        let d2 := reconcileFirstImg h (jsCoe u) d1
        (⟨d2, st.selected⟩,
          ev0 ++ [Ev.changedDoc d2, Ev.revoked h, Ev.toastSuccess])
    | UploadOutcome.httpError =>
        let d2 := removeFailedImgs h d1
        (⟨d2, st.selected⟩,
          ev0 ++ [Ev.removedImgs h, Ev.changedDoc d2, Ev.revoked h, Ev.toastError])
    | UploadOutcome.networkError =>
        (⟨d1, st.selected⟩, ev0 ++ [Ev.toastError])

/-- States reachable through the operations of the transform editor,
starting from the freshly mounted empty document. -/
inductive Reach : EditorSt → Prop where
  | init : Reach ⟨[], none⟩
  | clickImg {st : EditorSt} (i : Nat) : Reach st → Reach (stepClickImg i st)
  | clickOut {st : EditorSt} : Reach st → Reach (stepClickOut st)
  | resize {st : EditorSt} (w : Str) : Reach st → Reach (resizeSelectedImage w st)
  | align {st : EditorSt} (a : Str) : Reach st → Reach (alignSelectedImage a st)
  | upload {st : EditorSt} (file : Option Unit) (h : Str) (o : UploadOutcome) :
      Reach st → Reach (handleImageUpload st file h o).1

end RichTextEditorTransform

/-! ### Concrete inputs for counterexamples and witnesses -/

/-- A concrete transient handle. -/
def cexH : Str := ['b', 'l', 'o', 'b', ':', 'a']

/-- A concrete durable URL. -/
def cexU : Str := ['h', 't', 't', 'p', ':', '/', '/', 'u']

/-- A concrete API base. -/
def cexBase : Str := ['h', 't', 't', 'p', ':', '/', '/', 'b']

/-! ### Lemmas about literal search-and-replace -/

theorem isPrefixOf_append_drop :
    ∀ (a s : Str), a.isPrefixOf s = true → a ++ List.drop a.length s = s := by
  intro a
  induction a with
  | nil => intro s _; simp
  | cons x xs ih =>
    intro s hp
    cases s with
    | nil => simp [List.isPrefixOf] at hp
    | cons y ys =>
      simp only [List.isPrefixOf, Bool.and_eq_true, beq_iff_eq] at hp
      obtain ⟨hxy, hrest⟩ := hp
      subst hxy
      simp only [List.length_cons, List.drop_succ_cons, List.cons_append,
        List.cons.injEq, true_and]
      exact ih ys hrest

theorem isPrefixOf_append (a t : Str) : a.isPrefixOf (a ++ t) = true := by
  induction a with
  | nil => simp [List.isPrefixOf]
  | cons x xs ih => simp [List.isPrefixOf, ih]

theorem isPrefixOf_exists {a s : Str} (hp : a.isPrefixOf s = true) :
    ∃ t, s = a ++ t :=
  ⟨List.drop a.length s, (isPrefixOf_append_drop a s hp).symm⟩

theorem isPrefixOf_trans_exists {h q rest : Str} {c : Char}
    (hpq : h.isPrefixOf (c :: q) = true) (hqr : ∃ t, rest = q ++ t) :
    h.isPrefixOf (c :: rest) = true := by
  obtain ⟨t, rfl⟩ := hqr
  obtain ⟨t2, ht2⟩ := isPrefixOf_exists hpq
  have hh : c :: (q ++ t) = h ++ (t2 ++ t) := by
    rw [← List.append_assoc, ← ht2]
    rfl
  rw [hh]
  exact isPrefixOf_append h (t2 ++ t)

theorem drop_fuel_le {h : Str} (hne : h ≠ []) {c : Char} {rest : Str} {f : Nat}
    (hs : (c :: rest).length ≤ f + 1) :
    (List.drop h.length (c :: rest)).length ≤ f := by
  have h1 : 1 ≤ h.length := by
    cases h with
    | nil => exact absurd rfl hne
    | cons _ _ => simp
  rw [List.length_drop]
  simp only [List.length_cons] at hs ⊢
  omega

theorem splitOnGo_ne_nil (h : Str) : ∀ (f : Nat) (s : Str), splitOnGo h f s ≠ [] := by
  intro f
  induction f with
  | zero => intro s; cases s <;> simp [splitOnGo]
  | succ f ih =>
    intro s
    cases s with
    | nil => simp [splitOnGo]
    | cons c rest =>
      by_cases hp : h.isPrefixOf (c :: rest) = true
      · simp [splitOnGo, hp]
      · simp only [splitOnGo]
        rw [if_neg hp]
        cases hq : splitOnGo h f rest with
        | nil => exact absurd hq (ih rest)
        | cons q qs => simp [consFirst]

theorem joinWith_cons_of_ne_nil (u p : Str) {ps : List Str} (hps : ps ≠ []) :
    joinWith u (p :: ps) = p ++ u ++ joinWith u ps := by
  cases ps with
  | nil => exact absurd rfl hps
  | cons q qs => rfl

theorem joinWith_consFirst (u : Str) (c : Char) (ps : List Str) :
    joinWith u (consFirst c ps) = c :: joinWith u ps := by
  cases ps with
  | nil => rfl
  | cons q qs =>
    cases qs with
    | nil => rfl
    | cons q2 qs2 => rfl

theorem consFirst_length (c : Char) {ps : List Str} (hps : ps ≠ []) :
    (consFirst c ps).length = ps.length := by
  cases ps with
  | nil => exact absurd rfl hps
  | cons q qs => rfl

theorem replaceAllGo_eq_joinWith {h u : Str} (hne : h ≠ []) :
    ∀ (f : Nat) (s : Str), s.length ≤ f →
      replaceAllGo h u f s = joinWith u (splitOnGo h f s) := by
  intro f
  induction f with
  | zero =>
    intro s hs
    cases s with
    | nil => rfl
    | cons c rest => simp at hs
  | succ f ih =>
    intro s hs
    cases s with
    | nil => rfl
    | cons c rest =>
      by_cases hp : h.isPrefixOf (c :: rest) = true
      · simp only [replaceAllGo, splitOnGo]
        rw [if_pos hp, if_pos hp,
          joinWith_cons_of_ne_nil u [] (splitOnGo_ne_nil h f _),
          ih _ (drop_fuel_le hne hs)]
        simp
      · simp only [replaceAllGo, splitOnGo]
        rw [if_neg hp, if_neg hp, joinWith_consFirst]
        have hrest : rest.length ≤ f := by
          simp only [List.length_cons] at hs
          omega
        rw [ih rest hrest]

theorem joinWith_splitOnGo {h : Str} (hne : h ≠ []) :
    ∀ (f : Nat) (s : Str), s.length ≤ f → joinWith h (splitOnGo h f s) = s := by
  intro f
  induction f with
  | zero =>
    intro s hs
    cases s with
    | nil => rfl
    | cons c rest => simp at hs
  | succ f ih =>
    intro s hs
    cases s with
    | nil => rfl
    | cons c rest =>
      by_cases hp : h.isPrefixOf (c :: rest) = true
      · simp only [splitOnGo]
        rw [if_pos hp,
          joinWith_cons_of_ne_nil h [] (splitOnGo_ne_nil h f _),
          ih _ (drop_fuel_le hne hs)]
        simp only [List.nil_append]
        exact isPrefixOf_append_drop h (c :: rest) hp
      · simp only [splitOnGo]
        rw [if_neg hp, joinWith_consFirst]
        have hrest : rest.length ≤ f := by
          simp only [List.length_cons] at hs
          omega
        rw [ih rest hrest]

theorem splitOnGo_length_eq {h : Str} (hne : h ≠ []) :
    ∀ (f : Nat) (s : Str), s.length ≤ f →
      (splitOnGo h f s).length = countOccsGo h f s + 1 := by
  intro f
  induction f with
  | zero =>
    intro s hs
    cases s with
    | nil => rfl
    | cons c rest => simp at hs
  | succ f ih =>
    intro s hs
    cases s with
    | nil => rfl
    | cons c rest =>
      by_cases hp : h.isPrefixOf (c :: rest) = true
      · simp only [splitOnGo, countOccsGo]
        rw [if_pos hp, if_pos hp]
        simp only [List.length_cons, ih _ (drop_fuel_le hne hs)]
      · simp only [splitOnGo, countOccsGo]
        rw [if_neg hp, if_neg hp,
          consFirst_length c (splitOnGo_ne_nil h f rest)]
        have hrest : rest.length ≤ f := by
          simp only [List.length_cons] at hs
          omega
        exact ih rest hrest

theorem splitOnGo_head_ex {h : Str} :
    ∀ (f : Nat) (s p : Str) (ps : List Str),
      splitOnGo h f s = p :: ps → ∃ t, s = p ++ t := by
  intro f
  induction f with
  | zero =>
    intro s p ps heq
    cases s with
    | nil =>
      simp only [splitOnGo, List.cons.injEq] at heq
      exact ⟨[], by simp [← heq.1]⟩
    | cons c rest =>
      simp only [splitOnGo, List.cons.injEq] at heq
      exact ⟨[], by simp [← heq.1]⟩
  | succ f ih =>
    intro s p ps heq
    cases s with
    | nil =>
      simp only [splitOnGo, List.cons.injEq] at heq
      exact ⟨[], by simp [← heq.1]⟩
    | cons c rest =>
      by_cases hp : h.isPrefixOf (c :: rest) = true
      · simp only [splitOnGo] at heq
        rw [if_pos hp] at heq
        injection heq with h1 h2
        exact ⟨c :: rest, by simp [← h1]⟩
      · simp only [splitOnGo] at heq
        rw [if_neg hp] at heq
        cases hq : splitOnGo h f rest with
        | nil => exact absurd hq (splitOnGo_ne_nil h f rest)
        | cons q qs =>
          rw [hq] at heq
          simp only [consFirst, List.cons.injEq] at heq
          obtain ⟨h1, _⟩ := heq
          obtain ⟨t, ht⟩ := ih rest q qs hq
          refine ⟨t, ?_⟩
          rw [← h1, ht]
          rfl

theorem hasOcc_nil_of_ne {h : Str} (hne : h ≠ []) : hasOcc h [] = false := by
  cases h with
  | nil => exact absurd rfl hne
  | cons x xs => rfl

theorem splitOnGo_parts_free {h : Str} (hne : h ≠ []) :
    ∀ (f : Nat) (s : Str), s.length ≤ f →
      ∀ p ∈ splitOnGo h f s, hasOcc h p = false := by
  intro f
  induction f with
  | zero =>
    intro s hs p hmem
    cases s with
    | nil =>
      simp only [splitOnGo, List.mem_singleton] at hmem
      rw [hmem]
      exact hasOcc_nil_of_ne hne
    | cons c rest => simp at hs
  | succ f ih =>
    intro s hs p hmem
    cases s with
    | nil =>
      simp only [splitOnGo, List.mem_singleton] at hmem
      rw [hmem]
      exact hasOcc_nil_of_ne hne
    | cons c rest =>
      have hrest : rest.length ≤ f := by
        simp only [List.length_cons] at hs
        omega
      by_cases hp : h.isPrefixOf (c :: rest) = true
      · simp only [splitOnGo] at hmem
        rw [if_pos hp] at hmem
        rcases List.mem_cons.mp hmem with h1 | h2
        · rw [h1]
          exact hasOcc_nil_of_ne hne
        · exact ih _ (drop_fuel_le hne hs) p h2
      · simp only [splitOnGo] at hmem
        rw [if_neg hp] at hmem
        cases hq : splitOnGo h f rest with
        | nil => exact absurd hq (splitOnGo_ne_nil h f rest)
        | cons q qs =>
          rw [hq] at hmem
          simp only [consFirst, List.mem_cons] at hmem
          rcases hmem with h1 | h2
          · rw [h1]
            have hq2 : hasOcc h q = false :=
              ih rest hrest q (by rw [hq]; exact List.mem_cons_self q qs)
            have hp2 : h.isPrefixOf (c :: q) = false := by
              cases hb : h.isPrefixOf (c :: q) with
              | false => rfl
              | true =>
                exact absurd
                  (isPrefixOf_trans_exists hb (splitOnGo_head_ex f rest q qs hq)) hp
            simp [hasOcc, hp2, hq2]
          · exact ih rest hrest p (by rw [hq]; exact List.mem_cons_of_mem q h2)

theorem replaceAllGo_of_countOccs_zero {h u : Str} (_hne : h ≠ []) :
    ∀ (f : Nat) (s : Str), s.length ≤ f → countOccsGo h f s = 0 →
      replaceAllGo h u f s = s := by
  intro f
  induction f with
  | zero =>
    intro s hs _
    cases s with
    | nil => rfl
    | cons c rest => simp at hs
  | succ f ih =>
    intro s hs hcnt
    cases s with
    | nil => rfl
    | cons c rest =>
      by_cases hp : h.isPrefixOf (c :: rest) = true
      · simp only [countOccsGo] at hcnt
        rw [if_pos hp] at hcnt
        exact absurd hcnt (Nat.succ_ne_zero _)
      · simp only [replaceAllGo]
        rw [if_neg hp]
        simp only [countOccsGo] at hcnt
        rw [if_neg hp] at hcnt
        have hrest : rest.length ≤ f := by
          simp only [List.length_cons] at hs
          omega
        rw [ih rest hrest hcnt]

theorem replaceFirst_eq_replaceAllGo {h u : Str} (hne : h ≠ []) :
    ∀ (f : Nat) (s : Str), s.length ≤ f → countOccsGo h f s ≤ 1 →
      replaceFirst h u s = replaceAllGo h u f s := by
  intro f
  induction f with
  | zero =>
    intro s hs _
    cases s with
    | nil => rfl
    | cons c rest => simp at hs
  | succ f ih =>
    intro s hs hcnt
    cases s with
    | nil => rfl
    | cons c rest =>
      by_cases hp : h.isPrefixOf (c :: rest) = true
      · simp only [replaceFirst, replaceAllGo]
        rw [if_pos hp, if_pos hp]
        simp only [countOccsGo] at hcnt
        rw [if_pos hp] at hcnt
        have h0 : countOccsGo h f (List.drop h.length (c :: rest)) = 0 := by omega
        rw [replaceAllGo_of_countOccs_zero hne f _ (drop_fuel_le hne hs) h0]
      · simp only [replaceFirst, replaceAllGo]
        rw [if_neg hp, if_neg hp]
        simp only [countOccsGo] at hcnt
        rw [if_neg hp] at hcnt
        have hrest : rest.length ≤ f := by
          simp only [List.length_cons] at hs
          omega
        rw [ih rest hrest hcnt]

theorem replaceAll_eq_go {h u s : Str} (hne : h ≠ []) :
    replaceAll h u s = replaceAllGo h u s.length s := if_neg hne

theorem countOccs_eq_go {h s : Str} (hne : h ≠ []) :
    countOccs h s = countOccsGo h s.length s := if_neg hne

theorem splitOnL_eq_go {h s : Str} (hne : h ≠ []) :
    splitOnL h s = splitOnGo h s.length s := if_neg hne

/-! ### Lemmas about the transform editor document operations -/

open RichTextEditorTransform

theorem selCount_append (d1 d2 : Doc) :
    selCount (d1 ++ d2) = selCount d1 + selCount d2 := by
  induction d1 with
  | nil => simp [selCount]
  | cons n d ih => simp [selCount, ih, Nat.add_assoc]

theorem isSelImg_unselNode (n : Node) : isSelImg (unselNode n) = false := by
  cases n with
  | img s sel w a => rfl
  | text s => rfl

theorem selCount_map_unsel (d : Doc) : selCount (List.map unselNode d) = 0 := by
  induction d with
  | nil => rfl
  | cons n d ih => simp [selCount, isSelImg_unselNode, ih]

theorem selCount_clearSel (d : Doc) : selCount (clearSel d) = 0 :=
  selCount_map_unsel d

theorem selCount_setSelAt_of_zero :
    ∀ (i : Nat) (d : Doc), selCount d = 0 → selCount (setSelAt i d) ≤ 1 := by
  intro i d
  induction d generalizing i with
  | nil =>
    intro _
    simp [setSelAt, selCount]
  | cons n d ih =>
    intro h0
    simp only [selCount] at h0
    cases i with
    | zero =>
      simp only [setSelAt, selCount]
      have hd : selCount d = 0 := by omega
      have hs : (if isSelImg (selNode n) then 1 else 0) ≤ 1 := by split <;> omega
      omega
    | succ i =>
      simp only [setSelAt, selCount]
      have hd : selCount d = 0 := by omega
      have hn : (if isSelImg n then 1 else 0) = 0 := by omega
      have := ih i hd
      omega

theorem getElem_clearSel (d : Doc) (i : Nat) :
    (clearSel d)[i]? = (d[i]?).map unselNode := by
  simp [clearSel]

theorem getElem_setSelAt :
    ∀ (i : Nat) (d : Doc), (setSelAt i d)[i]? = (d[i]?).map selNode := by
  intro i d
  induction d generalizing i with
  | nil => simp [setSelAt]
  | cons n d ih =>
    cases i with
    | zero => simp [setSelAt]
    | succ i => simpa [setSelAt] using ih i

theorem selCount_setSelAt_eq_one :
    ∀ (i : Nat) (d : Doc), selCount d = 0 →
      (∃ n, d[i]? = some n ∧ isImgNode n = true) →
      selCount (setSelAt i d) = 1 := by
  intro i d
  induction d generalizing i with
  | nil =>
    intro _ hex
    obtain ⟨n, hn, _⟩ := hex
    simp at hn
  | cons m d ih =>
    intro h0 hex
    simp only [selCount] at h0
    cases i with
    | zero =>
      obtain ⟨n, hn, himg⟩ := hex
      simp only [List.getElem?_cons_zero, Option.some.injEq] at hn
      subst hn
      cases m with
      | img s sel w a =>
        simp only [setSelAt, selNode, selCount, isSelImg]
        have hd : selCount d = 0 := by omega
        simp [hd]
      | text s => simp [isImgNode] at himg
    | succ i =>
      obtain ⟨n, hn, himg⟩ := hex
      simp only [List.getElem?_cons_succ] at hn
      simp only [setSelAt, selCount]
      have hd : selCount d = 0 := by omega
      have hm : (if isSelImg m then 1 else 0) = 0 := by omega
      rw [hm, ih i hd ⟨n, hn, himg⟩]

theorem selCount_filter_le (p : Node → Bool) (d : Doc) :
    selCount (d.filter p) ≤ selCount d := by
  induction d with
  | nil => simp
  | cons n d ih =>
    simp only [List.filter_cons]
    split
    · simp only [selCount]
      omega
    · simp only [selCount]
      omega

theorem selCount_setWidthAt (w : Str) :
    ∀ (i : Nat) (d : Doc), selCount (setWidthAt w i d) = selCount d := by
  intro i d
  induction d generalizing i with
  | nil => simp [setWidthAt]
  | cons n d ih =>
    cases i with
    | zero =>
      cases n with
      | img s sel w0 a => cases sel <;> rfl
      | text s => rfl
    | succ i => simp only [setWidthAt, selCount, ih i]

theorem selCount_setFloatAt (a : Str) :
    ∀ (i : Nat) (d : Doc), selCount (setFloatAt a i d) = selCount d := by
  intro i d
  induction d generalizing i with
  | nil => simp [setFloatAt]
  | cons n d ih =>
    cases i with
    | zero =>
      cases n with
      | img s sel w a0 => cases sel <;> rfl
      | text s => rfl
    | succ i => simp only [setFloatAt, selCount, ih i]

theorem selCount_reconcileFirstImg (h u : Str) :
    ∀ d : Doc, selCount (reconcileFirstImg h u d) = selCount d := by
  intro d
  induction d with
  | nil => rfl
  | cons n d ih =>
    cases n with
    | img s sel w a =>
      by_cases hs : s = h
      · simp only [reconcileFirstImg]
        rw [if_pos hs]
        cases sel <;> rfl
      · simp only [reconcileFirstImg]
        rw [if_neg hs]
        simp only [selCount, ih]
    | text s => simp only [reconcileFirstImg, selCount, ih]

theorem selCount_insertImage (h : Str) (d : Doc) :
    selCount (insertImageAtCursor h d) = selCount d := by
  simp [insertImageAtCursor, selCount_append, selCount, isSelImg]

theorem reach_selCount_le {st : EditorSt} (hr : Reach st) : selCount st.doc ≤ 1 := by
  induction hr with
  | init => simp [selCount]
  | clickImg i hr ih =>
    unfold stepClickImg
    split
    · exact selCount_setSelAt_of_zero i _ (selCount_clearSel _)
    · exact ih
  | clickOut hr ih => simp [stepClickOut, selCount_clearSel]
  | resize w hr ih =>
    unfold resizeSelectedImage
    split
    · simpa [selCount_setWidthAt] using ih
    · exact ih
  | align a hr ih =>
    unfold alignSelectedImage
    split
    · simpa [selCount_setFloatAt] using ih
    · exact ih
  | upload file h o hr ih =>
    cases file with
    | none => simpa [handleImageUpload] using ih
    | some _ =>
      cases o with
      | ok u =>
        simp only [handleImageUpload]
        rw [selCount_reconcileFirstImg, selCount_insertImage]
        exact ih
      | httpError =>
        simp only [handleImageUpload]
        refine le_trans (selCount_filter_le _ _) ?_
        rw [selCount_insertImage]
        exact ih
      | networkError =>
        simp only [handleImageUpload]
        rw [selCount_insertImage]
        exact ih

/-! ### Claims -/

/-- C1: reconciliation of a resolved upload substitutes the durable URL for
the transient handle in the serialized content.  In the Map editor variant
(handleInput) the substitution is global: the result is exactly the original
content with the durable URL joined in place of each of the N leftmost
non-overlapping occurrences of the handle, and the inter-occurrence segments
contain no further occurrence.  In the transform editor variant (reconcile)
the substitution is first-occurrence only, so it agrees with the global
behaviour exactly when the handle occurs at most once. -/
theorem C1_global_substitution (h u s : Str) (hne : h ≠ []) :
    (RichTextEditorMap.handleInput [(h, u)] s = joinWith u (splitOnL h s)
      ∧ joinWith h (splitOnL h s) = s
      ∧ (splitOnL h s).length = countOccs h s + 1
      ∧ (∀ p ∈ splitOnL h s, hasOcc h p = false))
    ∧ (countOccs h s ≤ 1 →
      RichTextEditorTransform.reconcile h u s
        = RichTextEditorMap.handleInput [(h, u)] s) := by
  have hfold : RichTextEditorMap.handleInput [(h, u)] s = replaceAll h u s := rfl
  constructor
  · refine ⟨?_, ?_, ?_, ?_⟩
    · rw [hfold, replaceAll_eq_go hne, splitOnL_eq_go hne]
      exact replaceAllGo_eq_joinWith hne s.length s (le_refl _)
    · rw [splitOnL_eq_go hne]
      exact joinWith_splitOnGo hne s.length s (le_refl _)
    · rw [splitOnL_eq_go hne, countOccs_eq_go hne]
      exact splitOnGo_length_eq hne s.length s (le_refl _)
    · rw [splitOnL_eq_go hne]
      exact splitOnGo_parts_free hne s.length s (le_refl _)
  · intro hcnt
    rw [hfold, replaceAll_eq_go hne]
    rw [countOccs_eq_go hne] at hcnt
    exact replaceFirst_eq_replaceAllGo hne s.length s (le_refl _) hcnt

/-- Witness for C1 at a concrete handle, URL and single-occurrence content. -/
theorem C1_witness :
    RichTextEditorTransform.reconcile cexH cexU (cexH ++ cexU)
      = RichTextEditorMap.handleInput [(cexH, cexU)] (cexH ++ cexU) :=
  (C1_global_substitution cexH cexU (cexH ++ cexU) (by decide)).2 (by decide)

/-- Counterexample to C1 as stated: with content holding the handle twice,
the transform editor variant leaves one occurrence of the handle in the
reconciled content instead of zero. -/
theorem C1_counterexample :
    RichTextEditorTransform.reconcile cexH cexU (cexH ++ cexH) = cexU ++ cexH
    ∧ countOccs cexH (cexH ++ cexH) = 2
    ∧ countOccs cexH (RichTextEditorTransform.reconcile cexH cexU (cexH ++ cexH)) = 1 := by
  decide

/-- C2: after a failed upload the basic widget leaves the bound reference
and the preview at their pre-selection value (onChange is never called on
its failure paths); the tabs widget instead always clears the bound
reference to empty, which equals the pre-selection value only when that
value was empty. -/
theorem C2_failure_revert (st1 : ImageUploadBasic.St) (st2 : ImageUploadTabs.St)
    (h : Str) :
    ((ImageUploadBasic.onDrop st1 (some ()) h UploadOutcome.httpError).1.value = st1.value
      ∧ (ImageUploadBasic.onDrop st1 (some ()) h UploadOutcome.httpError).1.previewUrl = st1.value
      ∧ (ImageUploadBasic.onDrop st1 (some ()) h UploadOutcome.networkError).1.value = st1.value
      ∧ (ImageUploadBasic.onDrop st1 (some ()) h UploadOutcome.networkError).1.previewUrl = st1.value)
    ∧ ((ImageUploadTabs.onDrop st2 (some ()) h UploadOutcome.httpError).1.value = JVal.str []
      ∧ (ImageUploadTabs.onDrop st2 (some ()) h UploadOutcome.networkError).1.value = JVal.str []) :=
  ⟨⟨rfl, rfl, rfl, rfl⟩, rfl, rfl⟩

/-- Counterexample to C2 as stated: in the tabs widget, with a durable URL
bound before selection, a failed upload leaves the bound reference empty
rather than at its pre-selection value. -/
theorem C2_counterexample :
    (ImageUploadTabs.onDrop ⟨JVal.str cexU, JVal.str cexU, JVal.str cexU, false, false⟩
      (some ()) cexH UploadOutcome.httpError).1.value ≠ JVal.str cexU := by
  decide

/-- C3: in the basic widget the change callback never carries a blob URL on
any settlement of a drop, provided the server URL is not itself a blob URL;
the tabs widget does reconcile the bound value to the server URL on success
(but, per the counterexample, hands the blob handle itself to the callback
at selection time); and the Map editor passes content through the callback
unmodified while its reconciliation map is still empty. -/
theorem C3_callback_blob_freedom (st1 : ImageUploadBasic.St) (st2 : ImageUploadTabs.St)
    (h u : Str) (o : UploadOutcome)
    (ho : ∀ w, o = UploadOutcome.ok (some w) → isBlobUrl w = false) :
    (∀ v ∈ changedVals (ImageUploadBasic.onDrop st1 (some ()) h o).2,
      ∀ w, v = JVal.str w → isBlobUrl w = false)
    ∧ (ImageUploadTabs.onDrop st2 (some ()) h (UploadOutcome.ok (some u))).1.value = JVal.str u
    ∧ (∀ c : Str, RichTextEditorMap.handleInput [] c = c) := by
  refine ⟨?_, rfl, fun c => rfl⟩
  cases o with
  | ok u2 =>
    cases u2 with
    | some w =>
      intro v hv w2 hw
      simp only [ImageUploadBasic.onDrop, jval, List.cons_append, List.nil_append,
        changedVals, List.mem_singleton] at hv
      subst hv
      injection hw with hww
      rw [← hww]
      exact ho w rfl
    | none =>
      intro v hv w2 hw
      simp only [ImageUploadBasic.onDrop, jval, List.cons_append, List.nil_append,
        changedVals, List.mem_singleton] at hv
      rw [hv] at hw
      exact absurd hw (by simp)
  | httpError =>
    intro v hv w2 hw
    simp only [ImageUploadBasic.onDrop, List.cons_append, List.nil_append,
      changedVals, List.not_mem_nil] at hv
  | networkError =>
    intro v hv w2 hw
    simp only [ImageUploadBasic.onDrop, List.cons_append, List.nil_append,
      changedVals, List.not_mem_nil] at hv

/-- Witness for C3 at concrete inputs. -/
theorem C3_witness : isBlobUrl cexU = false :=
  (C3_callback_blob_freedom ⟨JVal.str [], JVal.str [], JVal.str [], false⟩
    ⟨JVal.str [], JVal.str [], JVal.str [], false, false⟩ cexH cexU
    (UploadOutcome.ok (some cexU))
    (by
      intro w hw
      injection hw with h1
      injection h1 with h2
      rw [← h2]
      decide)).1
    (JVal.str cexU) (by decide) cexU rfl

/-- Counterexample to C3 as stated: the tabs widget invokes the change
callback with the blob handle itself at selection time. -/
theorem C3_counterexample :
    JVal.str cexH ∈ changedVals
      (ImageUploadTabs.onDrop ⟨JVal.str [], JVal.str [], JVal.str [], false, false⟩
        (some ()) cexH (UploadOutcome.ok (some cexU))).2
    ∧ isBlobUrl cexH = true := by
  decide

/-- C4: in the basic widget a thrown fetch and a non-2xx response behave
alike at the interface — handle revoked (once resp. twice), state reverted
to the pre-selection value, exactly one failure toast, no success toast, no
change-callback invocation — whereas a 2xx response whose body lacks the url
field is NOT treated as a failure: it takes the success path, invoking the
callback with the undefined value and firing the success toast. -/
theorem C4_error_taxonomy (st : ImageUploadBasic.St) (h : Str) :
    (countEv Ev.toastError
        (ImageUploadBasic.onDrop st (some ()) h UploadOutcome.networkError).2 = 1
      ∧ countEv Ev.toastSuccess
        (ImageUploadBasic.onDrop st (some ()) h UploadOutcome.networkError).2 = 0
      ∧ changedVals (ImageUploadBasic.onDrop st (some ()) h UploadOutcome.networkError).2 = []
      ∧ (ImageUploadBasic.onDrop st (some ()) h UploadOutcome.networkError).1
          = ⟨st.value, st.urlInput, st.value, false⟩
      ∧ countEv (Ev.revoked h)
        (ImageUploadBasic.onDrop st (some ()) h UploadOutcome.networkError).2 = 1)
    ∧ (countEv Ev.toastError
        (ImageUploadBasic.onDrop st (some ()) h UploadOutcome.httpError).2 = 1
      ∧ countEv Ev.toastSuccess
        (ImageUploadBasic.onDrop st (some ()) h UploadOutcome.httpError).2 = 0
      ∧ changedVals (ImageUploadBasic.onDrop st (some ()) h UploadOutcome.httpError).2 = []
      ∧ (ImageUploadBasic.onDrop st (some ()) h UploadOutcome.httpError).1
          = ⟨st.value, st.urlInput, st.value, false⟩
      ∧ countEv (Ev.revoked h)
        (ImageUploadBasic.onDrop st (some ()) h UploadOutcome.httpError).2 = 2)
    ∧ (countEv Ev.toastError
        (ImageUploadBasic.onDrop st (some ()) h (UploadOutcome.ok none)).2 = 0
      ∧ countEv Ev.toastSuccess
        (ImageUploadBasic.onDrop st (some ()) h (UploadOutcome.ok none)).2 = 1
      ∧ changedVals (ImageUploadBasic.onDrop st (some ()) h (UploadOutcome.ok none)).2
          = [JVal.undef]
      ∧ (ImageUploadBasic.onDrop st (some ()) h (UploadOutcome.ok none)).1
          = ⟨JVal.undef, JVal.undef, JVal.undef, false⟩) := by
  refine ⟨⟨?_, ?_, rfl, rfl, ?_⟩, ⟨?_, ?_, rfl, rfl, ?_⟩, ?_, ?_, rfl, rfl⟩ <;>
    simp [ImageUploadBasic.onDrop, countEv]

/-- Counterexample to C4 as stated: a 2xx response with no url field fires
the success toast and no failure toast, and commits the undefined value
instead of reverting. -/
theorem C4_counterexample :
    countEv Ev.toastError
      (ImageUploadBasic.onDrop ⟨JVal.str cexU, JVal.str cexU, JVal.str cexU, false⟩
        (some ()) cexH (UploadOutcome.ok none)).2 = 0
    ∧ countEv Ev.toastSuccess
      (ImageUploadBasic.onDrop ⟨JVal.str cexU, JVal.str cexU, JVal.str cexU, false⟩
        (some ()) cexH (UploadOutcome.ok none)).2 = 1
    ∧ (ImageUploadBasic.onDrop ⟨JVal.str cexU, JVal.str cexU, JVal.str cexU, false⟩
        (some ()) cexH (UploadOutcome.ok none)).1.value ≠ JVal.str cexU := by
  decide

/-- C5: allocation/release accounting in the basic widget: one allocation
per drop; exactly one release on the success, malformed-success and
thrown-fetch paths, and on a clear or unmount whose current preview is a
truthy blob URL; but the non-2xx failure path releases the same handle
twice, and supersession by a typed URL performs no release at all. -/
theorem C5_release_pairing (st : ImageUploadBasic.St) (h u url p : Str)
    (v ui : JVal) (b : Bool) :
    countEv (Ev.created h)
      (ImageUploadBasic.onDrop st (some ()) h (UploadOutcome.ok (some u))).2 = 1
    ∧ countEv (Ev.revoked h)
      (ImageUploadBasic.onDrop st (some ()) h (UploadOutcome.ok (some u))).2 = 1
    ∧ countEv (Ev.revoked h)
      (ImageUploadBasic.onDrop st (some ()) h (UploadOutcome.ok none)).2 = 1
    ∧ countEv (Ev.revoked h)
      (ImageUploadBasic.onDrop st (some ()) h UploadOutcome.networkError).2 = 1
    ∧ countEv (Ev.revoked h)
      (ImageUploadBasic.onDrop st (some ()) h UploadOutcome.httpError).2 = 2
    ∧ countEv (Ev.revoked p) (ImageUploadBasic.handleUrlChange st url).2 = 0
    ∧ countEv (Ev.revoked p) (ImageUploadBasic.clearImage ⟨v, ui, JVal.str p, b⟩).2
        = (if p ≠ [] ∧ isBlobUrl p = true then 1 else 0)
    ∧ countEv (Ev.revoked p) (ImageUploadBasic.unmountCleanup ⟨v, ui, JVal.str p, b⟩)
        = (if p ≠ [] ∧ isBlobUrl p = true then 1 else 0) := by
  refine ⟨?_, ?_, ?_, ?_, ?_, ?_, ?_, ?_⟩
  · simp [ImageUploadBasic.onDrop, countEv]
  · simp [ImageUploadBasic.onDrop, countEv]
  · simp [ImageUploadBasic.onDrop, countEv]
  · simp [ImageUploadBasic.onDrop, countEv]
  · simp [ImageUploadBasic.onDrop, countEv]
  · simp [ImageUploadBasic.handleUrlChange, countEv]
  · by_cases hc : p ≠ [] ∧ isBlobUrl p = true <;>
      simp [ImageUploadBasic.clearImage, countEv, hc]
  · by_cases hc : p ≠ [] ∧ isBlobUrl p = true <;>
      simp [ImageUploadBasic.unmountCleanup, countEv, hc]

/-- Counterexample to C5 as stated: on a non-2xx upload failure the basic
widget releases the transient handle twice, not exactly once. -/
theorem C5_counterexample :
    countEv (Ev.revoked cexH)
      (ImageUploadBasic.onDrop ⟨JVal.str [], JVal.str [], JVal.str [], false⟩
        (some ()) cexH UploadOutcome.httpError).2 = 2 := by
  decide

/-- C6: on upload success the final bound reference equals the url field of
the response (with the API base prepended in the Map editor).  In the basic
widget the entire final state is the server URL and the handle has been
revoked; the tabs widget also binds the server URL but keeps the transient
handle as its preview and performs no revocation; the Map editor keeps the
handle as a key of its reconciliation map. -/
theorem C6_success_binding (st1 : ImageUploadBasic.St) (st2 : ImageUploadTabs.St)
    (h u base c : Str) (up : List (Str × Str)) :
    (ImageUploadBasic.onDrop st1 (some ()) h (UploadOutcome.ok (some u))).1
      = ⟨JVal.str u, JVal.str u, JVal.str u, false⟩
    ∧ countEv (Ev.revoked h)
      (ImageUploadBasic.onDrop st1 (some ()) h (UploadOutcome.ok (some u))).2 = 1
    ∧ (ImageUploadTabs.onDrop st2 (some ()) h (UploadOutcome.ok (some u))).1
      = ⟨JVal.str u, st2.urlInput, JVal.str h, false, true⟩
    ∧ countEv (Ev.revoked h)
      (ImageUploadTabs.onDrop st2 (some ()) h (UploadOutcome.ok (some u))).2 = 0
    ∧ (RichTextEditorMap.handleImageUpload base up c (some ()) h
        (UploadOutcome.ok (some u))).1 = up ++ [(h, base ++ u)] := by
  refine ⟨rfl, ?_, rfl, ?_, rfl⟩ <;>
    simp [ImageUploadBasic.onDrop, ImageUploadTabs.onDrop, countEv]

/-- Counterexample to C6 as stated: after a successful upload the tabs
widget still holds the transient handle as its preview, so the handle is
still reachable from the component state. -/
theorem C6_counterexample :
    (ImageUploadTabs.onDrop ⟨JVal.str [], JVal.str [], JVal.str [], false, false⟩
      (some ()) cexH (UploadOutcome.ok (some cexU))).1.previewUrl = JVal.str cexH
    ∧ isBlobUrl cexH = true := by
  decide

/-- C7: in all four variants, with a selected file the transient handle is
made the visible/bound reference strictly before the upload request is
issued: every drop/upload trace decomposes into a request-free segment
containing the preview (or insertion) of the handle, followed by the
request. -/
theorem C7_preview_before_request (st1 : ImageUploadBasic.St) (st2 : ImageUploadTabs.St)
    (stE : RichTextEditorTransform.EditorSt) (base c : Str) (up : List (Str × Str))
    (h : Str) (o : UploadOutcome) :
    (∃ pre post, (ImageUploadBasic.onDrop st1 (some ()) h o).2
        = pre ++ Ev.requestSent :: post
      ∧ Ev.previewSet (JVal.str h) ∈ pre ∧ Ev.requestSent ∉ pre)
    ∧ (∃ pre post, (ImageUploadTabs.onDrop st2 (some ()) h o).2
        = pre ++ Ev.requestSent :: post
      ∧ Ev.previewSet (JVal.str h) ∈ pre ∧ Ev.changed (JVal.str h) ∈ pre
      ∧ Ev.requestSent ∉ pre)
    ∧ (∃ pre post, (RichTextEditorMap.handleImageUpload base up c (some ()) h o).2
        = pre ++ Ev.requestSent :: post
      ∧ Ev.inserted h ∈ pre ∧ Ev.requestSent ∉ pre)
    ∧ (∃ pre post, (RichTextEditorTransform.handleImageUpload stE (some ()) h o).2
        = pre ++ Ev.requestSent :: post
      ∧ Ev.inserted h ∈ pre ∧ Ev.requestSent ∉ pre) := by
  refine ⟨?_, ?_, ?_, ?_⟩
  · cases o <;>
      exact ⟨[Ev.created h, Ev.previewSet (JVal.str h), Ev.uploadingSet true], _,
        rfl, by simp, by simp⟩
  · cases o <;>
      exact ⟨[Ev.created h, Ev.previewSet (JVal.str h), Ev.changed (JVal.str h),
        Ev.uploadingSet true], _, rfl, by simp, by simp, by simp⟩
  · cases o <;>
      exact ⟨[Ev.created h, Ev.inserted h, Ev.changedStr _, Ev.toastInfo], _,
        rfl, by simp, by simp⟩
  · cases o <;>
      exact ⟨[Ev.created h, Ev.inserted h, Ev.changedDoc _, Ev.toastInfo], _,
        rfl, by simp, by simp⟩

/-- C8: the failure cleanup of the editors removes exactly the image nodes
whose src equals the transient handle — the remaining document is a sublist
of the original, nodes matching the selector are absent and every other node
keeps its multiplicity — and the non-2xx upload path applies exactly this
cleanup to the document holding the inserted blob image; a thrown fetch,
however, leaves the document entirely unchanged, keeping the blob image (see
the counterexample). -/
theorem C8_failure_removal (d : Doc) (h : Str) (st : EditorSt) :
    List.Sublist (removeFailedImgs h d) d
    ∧ (∀ n : Node, isImgSrc h n = true →
        List.count n (removeFailedImgs h d) = 0)
    ∧ (∀ n : Node, isImgSrc h n = false →
        List.count n (removeFailedImgs h d) = List.count n d)
    ∧ (RichTextEditorTransform.handleImageUpload st (some ()) h UploadOutcome.httpError).1.doc
        = removeFailedImgs h (insertImageAtCursor h st.doc)
    ∧ (RichTextEditorTransform.handleImageUpload st (some ()) h UploadOutcome.networkError).1.doc
        = insertImageAtCursor h st.doc := by
  refine ⟨List.filter_sublist d, ?_, ?_, rfl, rfl⟩
  · intro n hn
    simp only [removeFailedImgs]
    rw [List.count_eq_zero]
    intro hmem
    have h2 := (List.mem_filter.mp hmem).2
    rw [hn] at h2
    simp at h2
  · intro n hn
    simp only [removeFailedImgs]
    exact List.count_filter (by simp [hn])

/-- Witness for C8: the cleanup removes a concrete matching image node. -/
theorem C8_witness :
    List.count (Node.img cexH false w300 floatNone)
      (removeFailedImgs cexH [Node.img cexH false w300 floatNone]) = 0 :=
  (C8_failure_removal [Node.img cexH false w300 floatNone] cexH ⟨[], none⟩).2.1
    (Node.img cexH false w300 floatNone) (by decide)

/-- Counterexample to C8 as stated: on a thrown fetch (a network failure)
the transform editor removes nothing — the image node carrying the transient
handle stays in the document. -/
theorem C8_counterexample :
    (RichTextEditorTransform.handleImageUpload ⟨[], none⟩ (some ()) cexH
      UploadOutcome.networkError).1.doc = [Node.img cexH false w300 floatNone]
    ∧ isImgSrc cexH (Node.img cexH false w300 floatNone) = true := by
  decide

/-- C9: in the transform editor, every state reachable through the editor
operations carries the image-selected marker on at most one node; clicking
an image marks exactly the clicked node (clearing every other) and records
it as selected, and clicking outside any image clears both the markers and
the selection cell. -/
theorem C9_single_selection :
    (∀ st : EditorSt, Reach st → selCount st.doc ≤ 1)
    ∧ (∀ (st : EditorSt) (i : Nat) (s : Str) (sel : Bool) (w a : Str),
        st.doc[i]? = some (Node.img s sel w a) →
          selCount (stepClickImg i st).doc = 1
          ∧ (stepClickImg i st).selected = some i
          ∧ (stepClickImg i st).doc[i]? = some (Node.img s true w a))
    ∧ (∀ st : EditorSt, selCount (stepClickOut st).doc = 0
        ∧ (stepClickOut st).selected = none) := by
  refine ⟨fun st hr => reach_selCount_le hr, ?_, fun st => ⟨selCount_clearSel _, rfl⟩⟩
  intro st i s sel w a hi
  have hstep : stepClickImg i st = ⟨setSelAt i (clearSel st.doc), some i⟩ := by
    simp [stepClickImg, hi]
  rw [hstep]
  refine ⟨?_, rfl, ?_⟩
  · apply selCount_setSelAt_eq_one i _ (selCount_clearSel _)
    exact ⟨Node.img s false w a, by rw [getElem_clearSel, hi]; rfl, rfl⟩
  · rw [getElem_setSelAt, getElem_clearSel, hi]
    rfl

/-- Witness for C9: a concrete reachable state, obtained by uploading one
image and clicking it, satisfies the selection bound. -/
theorem C9_witness :
    selCount (stepClickImg 0
      ((RichTextEditorTransform.handleImageUpload ⟨[], none⟩ (some ()) cexH
        (UploadOutcome.ok (some cexU))).1)).doc ≤ 1 :=
  C9_single_selection.1 _
    (Reach.clickImg 0
      (Reach.upload (some ()) cexH (UploadOutcome.ok (some cexU)) Reach.init))

/-- C10: with no accepted file, the drop handlers of both single-image
widgets change nothing and emit nothing. -/
theorem C10_empty_drop_noop (st1 : ImageUploadBasic.St) (st2 : ImageUploadTabs.St)
    (h : Str) (o : UploadOutcome) :
    ImageUploadBasic.onDrop st1 none h o = (st1, [])
    ∧ ImageUploadTabs.onDrop st2 none h o = (st2, []) :=
  ⟨rfl, rfl⟩
